import Mathlib

/-!
Shallow embedding of the core of the LLM-Knowledge-Extractor service:

* `extract_top3_nouns_like` — the heuristic keyword extractor of
  `app/services/keywords.py` (regex tokenizer `[A-Za-z][A-Za-z\-']+`,
  possessive stripping, stopword/common-verb/length filtering,
  frequency + capitalization + length scoring, deterministic ranking).
* `InMemoryDB.insert_analysis` / `InMemoryDB.search` — the in-memory storage
  backend of `app/services/db.py`.
* `confidence_heuristic` — the confidence score of `app/routers/analyze.py`.
* `analyze_single` / `analyze_batch` — the per-item analysis flow and batch
  loop of `app/routers/analyze.py`, with the external LLM client modelled as
  an oracle `String → Option (String × LLMMeta)` (`none` models an exception
  raised by `summarize` / `extract_metadata`).

Modelling conventions: Python strings are Lean `String`s (lists of unicode
code points); Python `str.lower`, `str.strip`, `str.split`, `str.isupper`,
`str.islower` are embedded with their ASCII semantics, which coincide with
Python on the ASCII texts the service manipulates.  Python float scores
(`freq + 0.25 + 0.10`) are embedded exactly: on the code side as integers
scaled by 100, on the spec side as rational numbers; the two orderings agree
with IEEE doubles for every realistically sized input since distinct scores
differ by at least 0.05.  `float` confidence arithmetic is embedded over `ℝ`
with `math.log10 = Real.logb 10` and Python `round(x, 3)` as
`round (x * 1000) / 1000`; the two agree on every reachable input because the
value being rounded is never a half-integer multiple of 1/1000.
-/

/-! ### Python character classes (ASCII) -/

/-- ASCII uppercase letter test, the `A-Z` part of the tokenizer regex. -/
def isUp (c : Char) : Bool := 65 ≤ c.toNat && c.toNat ≤ 90

/-- ASCII lowercase letter test, the `a-z` part of the tokenizer regex. -/
def isLo (c : Char) : Bool := 97 ≤ c.toNat && c.toNat ≤ 122

/-- ASCII letter test, the class `[A-Za-z]`. -/
def isAl (c : Char) : Bool := isUp c || isLo c

/-- The regex continuation class `[A-Za-z\-']`. -/
def isWordChar (c : Char) : Bool := isAl c || c = '-' || c = '\''

/-- Python whitespace (`str.split` / `str.strip` with no argument):
space, tab, newline, carriage return, vertical tab, form feed. -/
def isPyWS (c : Char) : Bool :=
  c.toNat = 32 || c.toNat = 9 || c.toNat = 10 || c.toNat = 13 ||
  c.toNat = 11 || c.toNat = 12

/-- Python `str.lower()` (ASCII): lowercase every character. -/
def pyLower (s : String) : String := ⟨s.data.map Char.toLower⟩

/-- Strip Python whitespace from both ends of a character list. -/
def trimChars (l : List Char) : List Char :=
  ((l.dropWhile isPyWS).reverse.dropWhile isPyWS).reverse

/-- Python `str.strip()` with no argument. -/
def pyStrip (s : String) : String := ⟨trimChars s.data⟩

/-- Helper for `str.split()`: count maximal non-whitespace runs; the flag
records whether the scanner is currently inside a run. -/
def splitCount : Bool → List Char → ℕ
  | _, [] => 0
  | inw, c :: cs =>
    if isPyWS c then splitCount false cs
    else if inw then splitCount true cs
    else 1 + splitCount true cs

/-- `len(text.split())`: the number of whitespace-separated words. -/
def pySplitCount (s : String) : ℕ := splitCount false s.data

/-- Python `str.rstrip(a)` for a single strip character `a`. -/
def rstripChar (a : Char) (l : List Char) : List Char :=
  (l.reverse.dropWhile (fun c => c = a)).reverse

/-! ### The tokenizer: `re.findall(r"[A-Za-z][A-Za-z\-']+", text)`

`scanTok` is a direct state machine for the scan of the regex engine: the
state holds the first letter and the (reversed) continuation characters of
the token being built; a token needs a leading letter and at least one
continuation character.  When a letter is not followed by a continuation
character the engine moves on by one position, and the skipped character is
never a word character in that case, so the scanner may continue after it. -/

def scanTok : Option (Char × List Char) → List Char → List (List Char)
  | none, [] => []
  | none, c :: cs => if isAl c then scanTok (some (c, [])) cs else scanTok none cs
  | some (c0, acc), [] => if acc = [] then [] else [c0 :: acc.reverse]
  | some (c0, acc), c :: cs =>
    if isWordChar c then scanTok (some (c0, c :: acc)) cs
    else if acc = [] then scanTok none cs
    else (c0 :: acc.reverse) :: scanTok none cs

/-- All regex matches of `[A-Za-z][A-Za-z\-']+` in order, as strings. -/
def pyFindall (s : String) : List String :=
  (scanTok none s.data).map (fun l => (⟨l⟩ : String))

/-! ### Keyword extraction (`app/services/keywords.py`) -/

/-- The module-level `_STOPWORDS` set, verbatim from the source. -/
def _STOPWORDS : List String := [
  "the", "a", "an", "and", "or", "but", "if", "then", "else", "when",
  "while", "for", "on", "in", "to", "of", "by", "with", "as", "at",
  "from", "that", "this", "these", "those", "it", "its", "be", "is",
  "are", "was", "were", "been", "being", "am", "i", "you", "he",
  "she", "they", "them", "we", "us", "our", "your", "his", "her",
  "their", "my", "mine", "yours", "ours", "theirs", "do", "does",
  "did", "done", "have", "has", "had", "having", "will", "would",
  "can", "could", "should", "shall", "may", "might", "must", "not",
  "no", "yes", "so", "than", "too", "very", "there", "here", "what",
  "which", "who", "whom", "whose", "how", "why", "where", "into",
  "over", "under", "again", "further", "once", "about", "both",
  "between", "out", "up", "down", "off", "above", "below", "because",
  "until", "after", "before", "during", "each", "few", "more", "most",
  "other", "some", "such", "only", "own", "same", "s", "t", "d",
  "ll", "m", "o", "re", "ve", "y", "don", "shouldn", "now"]

/-- The module-level `_COMMON_VERBS` set, verbatim from the source. -/
def _COMMON_VERBS : List String := [
  "use", "build", "create", "make", "run", "scale", "deploy",
  "call", "send", "fetch", "return", "process", "analyze",
  "extract", "store", "search", "handle", "test", "containerize",
  "support", "add", "include", "design", "choose", "implement",
  "prefer", "focus", "integrate", "accept", "provide", "generate",
  "score", "classify", "view"]

/-- `base[:-2]` when `base` ends with `'s` or `’s` (possessive marker). -/
def possessiveDrop (l : List Char) : List Char :=
  match l.reverse with
  | c1 :: c2 :: _ =>
    if c1 = 's' ∧ (c2 = '\'' ∨ c2 = '’') then l.take (l.length - 2) else l
  | _ => l

/-- `tok.lower().rstrip("'").rstrip("’")` followed by the possessive strip. -/
def cleanBase (tok : String) : String :=
  ⟨possessiveDrop (rstripChar '’' (rstripChar '\'' (tok.data.map Char.toLower)))⟩

/-- One iteration of the cleaning loop: `none` when the base form is a
stopword, a common verb, or shorter than 3 characters. -/
def cleanTok (tok : String) : Option String :=
  if cleanBase tok ∈ _STOPWORDS ∨ cleanBase tok ∈ _COMMON_VERBS
      ∨ (cleanBase tok).length < 3 then none
  else some (cleanBase tok)

/-- The `cleaned` list of surviving lowercase token forms, in order. -/
def cleanTokens (tokens : List String) : List String := tokens.filterMap cleanTok

/-- Python `str.isupper()`: at least one cased character, no lowercase one. -/
def pyIsUpper (l : List Char) : Bool := l.any isAl && l.all (fun c => !(isLo c))

/-- Python `str.islower()`: at least one cased character, no uppercase one. -/
def pyIsLower (l : List Char) : Bool := l.any isAl && l.all (fun c => !(isUp c))

/-- The `caps` set: lowercase forms of tokens with
`tok[:1].isupper() and tok[1:].islower()`.  Membership is all that is ever
used, so the Python set is modelled as a list. -/
def capsOf (tokens : List String) : List String :=
  (tokens.filter (fun t => pyIsUpper (t.data.take 1) && pyIsLower (t.data.drop 1))).map pyLower

/-- Token score scaled by 100, exactly `(freq + bonus + length_bonus) * 100`:
the float score of the source, represented exactly. -/
def score100 (cleaned caps : List String) (w : String) : ℕ :=
  100 * cleaned.count w + (if w ∈ caps then 25 else 0) + (if 7 ≤ w.length then 10 else 0)

/-- The sort order of `scored.sort(key=lambda x: (-x[1], -x[2], x[0]))`:
lexicographic on (score descending, frequency descending, word ascending);
`w.data ≤ v.data` is code-point lexicographic order, as in Python. -/
abbrev keyLE (cleaned caps : List String) (w v : String) : Prop :=
  score100 cleaned caps v < score100 cleaned caps w
  ∨ (score100 cleaned caps w = score100 cleaned caps v
     ∧ (cleaned.count v < cleaned.count w
        ∨ (cleaned.count w = cleaned.count v ∧ w.data ≤ v.data)))

/-- Python `Counter` keys in first-occurrence order: first occurrence of each
distinct element is kept. -/
def firstDedup : List String → List String
  | [] => []
  | x :: xs => x :: (firstDedup xs).filter (fun y => y ≠ x)

/-- One step of the final loop: append the word unless it is already there. -/
def topStep (top : List String) (w : String) : List String :=
  if w ∈ top then top else top ++ [w]

/-- The final loop of `extract_top3_nouns_like`: append unseen words, stop as
soon as three have been collected. -/
def topLoop (top : List String) : List String → List String
  | [] => top
  | w :: ws =>
    if (topStep top w).length = 3 then topStep top w else topLoop (topStep top w) ws

/-- `extract_top3_nouns_like` from `app/services/keywords.py`.  The list sorted
in the source is the list of `(word, score, freq)` tuples in `Counter` key
order; since score and freq are functions of the word it is embedded as a sort
of the distinct words themselves (Python `list.sort` is stable and the key is
injective, so the order of the result is independent of the initial order). -/
def extract_top3_nouns_like (text : String) : List String :=
  if text = "" ∨ pyStrip text = "" then []
  else if pyFindall text = [] then []
  else if cleanTokens (pyFindall text) = [] then []
  else
    topLoop [] ((firstDedup (cleanTokens (pyFindall text))).insertionSort
      (fun w v => keyLE (cleanTokens (pyFindall text)) (capsOf (pyFindall text)) w v))

/-! ### Spec-side keyword extraction

`spec_top3_claim` is written from the words of claim C1 ("score each distinct
surviving token as `frequency + (0.25 if capitalized else 0) + (0.10 if long
else 0)`, rank by score desc / frequency desc / lexicographic asc, return the
first 3"), with the capitalized-set built from tokens whose first letter is
uppercase and whose remaining *letters* are all lowercase, read literally
(vacuously true when the remaining characters contain no letter).
`spec_top3` is the amended version, which additionally requires at least one
letter among the remaining characters — Python's `str.islower` semantics. -/

/-- Claim reading of the capitalization pattern: first character an uppercase
letter, every letter among the remaining characters lowercase. -/
def specCapsPredClaim (t : String) : Bool :=
  (match t.data with | c :: _ => isUp c | [] => false)
  && (t.data.drop 1).all (fun c => !(isAl c) || isLo c)

/-- Amended capitalization pattern: additionally at least one letter among
the remaining characters (this is Python `tok[1:].islower()`). -/
def specCapsPredAmended (t : String) : Bool :=
  specCapsPredClaim t && (t.data.drop 1).any isAl

/-- Capitalized-set under the literal claim reading. -/
def specCapsClaim (tokens : List String) : List String :=
  (tokens.filter specCapsPredClaim).map pyLower

/-- Capitalized-set under the amended reading. -/
def specCapsAmended (tokens : List String) : List String :=
  (tokens.filter specCapsPredAmended).map pyLower

/-- The score of the claim, with the literal constants 0.25 and 0.10. -/
def scoreQ (cleaned caps : List String) (w : String) : ℚ :=
  (cleaned.count w : ℚ) + (if w ∈ caps then 0.25 else 0) + (if 7 ≤ w.length then 0.10 else 0)

/-- The ranking order of the claim: score descending, then raw frequency
descending, then lexicographic ascending on the token string. -/
abbrev specLE (cleaned caps : List String) (w v : String) : Prop :=
  scoreQ cleaned caps v < scoreQ cleaned caps w
  ∨ (scoreQ cleaned caps w = scoreQ cleaned caps v
     ∧ (cleaned.count v < cleaned.count w
        ∨ (cleaned.count w = cleaned.count v ∧ w.data ≤ v.data)))

/-- Spec-side pipeline, parametrised by the capitalized-set construction:
the first 3 distinct surviving tokens in ranking order. -/
def spec_top3_with (capsFn : List String → List String) (text : String) : List String :=
  (((cleanTokens (pyFindall text)).dedup).insertionSort
    (fun w v => specLE (cleanTokens (pyFindall text)) (capsFn (pyFindall text)) w v)).take 3

/-- Claim C1 exactly as stated. -/
def spec_top3_claim : String → List String := spec_top3_with specCapsClaim

/-- Claim C1 with the amended capitalized-set condition. -/
def spec_top3 : String → List String := spec_top3_with specCapsAmended

/-! ### Storage (`app/services/db.py`, class `InMemoryDB`) -/

/-- The persisted record.  `id` is `none` when the `"id"` key is absent and
`some ""` models a present-but-falsy id string. -/
structure AnalysisRecord where
  id : Option String
  title : Option String
  summary : String
  topics : List String
  sentiment : String
  keywords : List String
  confidence : ℝ
  text : String

/-- Python truthiness of `item.get("id")` for the id field. -/
def idFalsy : Option String → Bool
  | none => true
  | some s => s = ""

namespace InMemoryDB

/-- `insert_analysis`: copy the row, assign `fresh` when the id is absent or
falsy, append, and return the stored copy together with the new row list. -/
def insert_analysis (fresh : String) (rows : List AnalysisRecord)
    (row : AnalysisRecord) : AnalysisRecord × List AnalysisRecord :=
  let item := if idFalsy row.id then { row with id := some fresh } else row
  (item, rows ++ [item])

/-- `q in topics or q in keywords` after lowercasing every entry. -/
def matchesQuery (q : String) (r : AnalysisRecord) : Bool :=
  decide (q ∈ r.topics.map pyLower) || decide (q ∈ r.keywords.map pyLower)

/-- The accumulation loop of `search`. -/
def searchLoop (q : String) : List AnalysisRecord → List AnalysisRecord
  | [] => []
  | r :: rs => if matchesQuery q r then r :: searchLoop q rs else searchLoop q rs

/-- `search`: `(topic or "").lower().strip()`; blank query returns all rows,
otherwise the rows whose lowered topics or keywords contain the query. -/
def search (rows : List AnalysisRecord) (topic : String) : List AnalysisRecord :=
  let q := pyStrip (pyLower topic)
  if q = "" then rows else searchLoop q rows

end InMemoryDB

/-! ### Confidence heuristic (`app/routers/analyze.py`) -/

/-- Python `round(x, 3)` over the reals. -/
noncomputable def round3 (x : ℝ) : ℝ := (round (x * 1000) : ℤ) / 1000

/-- The unclamped, unrounded confidence value
`0.55 + min(0.30, log10(n + 9) / 10) + llm_bonus`. -/
noncomputable def raw_conf (text : String) (llm_ok : Bool) : ℝ :=
  0.55 + min 0.30 (Real.logb 10 (((max 1 (pySplitCount text) : ℕ) : ℝ) + 9) / 10)
    + (if llm_ok then 0.10 else 0)

/-- `_confidence_heuristic`: round to 3 decimals, clamp to [0.50, 0.98]. -/
noncomputable def confidence_heuristic (text : String) (llm_ok : Bool) : ℝ :=
  max 0.50 (min 0.98 (round3 (raw_conf text llm_ok)))

/-! ### Analysis flow (`app/routers/analyze.py`) -/

/-- The structured metadata returned by the LLM client. -/
structure LLMMeta where
  title : Option String
  topics : List String
  sentiment : String

/-- The fixed fallback summary used when the LLM call fails. -/
def fallbackSummary : String := "LLM unavailable. Summary could not be generated."

/-- The fixed fallback topics used when the LLM call fails. -/
def fallbackTopics : List String := ["general", "unknown", "llm-failure"]

/-- Persist one assembled row and return the stored record with the new
state (row list and insertion counter). -/
noncomputable def persistRow (gen : ℕ → String) (st : List AnalysisRecord × ℕ)
    (row : AnalysisRecord) : Option (AnalysisRecord × (List AnalysisRecord × ℕ)) :=
  some ((InMemoryDB.insert_analysis (gen st.2) st.1 row).1,
    ((InMemoryDB.insert_analysis (gen st.2) st.1 row).2, st.2 + 1))

/-- `_analyze_single`.  `llm` is the external capability
(`summarize` + `extract_metadata`); `none` models a raised exception, handled
by the `except` branch, which substitutes the fixed fallback values and passes
`llm_ok = False` to the confidence heuristic.  `gen` supplies the fresh UUID
for each insertion and the second state component counts insertions.  The
result is `none` exactly when the input text is blank (the HTTP 400 path,
which re-raises). -/
noncomputable def analyze_single (llm : String → Option (String × LLMMeta))
    (gen : ℕ → String) (st : List AnalysisRecord × ℕ) (text : String) :
    Option (AnalysisRecord × (List AnalysisRecord × ℕ)) :=
  if pyStrip text = "" then none
  else
    match llm (pyStrip text) with
    | some (s, m) => persistRow gen st
        ⟨none, m.title, s, m.topics, m.sentiment,
         extract_top3_nouns_like (pyStrip text),
         confidence_heuristic (pyStrip text) true, pyStrip text⟩
    | none => persistRow gen st
        ⟨none, none, fallbackSummary, fallbackTopics, "neutral",
         extract_top3_nouns_like (pyStrip text),
         confidence_heuristic (pyStrip text) false, pyStrip text⟩

/-- The loop of the `/analyze` endpoint over `items`: each item is analyzed in
order; a blank item raises (aborting the batch, `none`), while LLM failures
are handled inside `analyze_single` and do not abort the loop. -/
noncomputable def analyze_batch (llm : String → Option (String × LLMMeta))
    (gen : ℕ → String) : List String → List AnalysisRecord × ℕ →
    Option (List AnalysisRecord × (List AnalysisRecord × ℕ))
  | [], st => some ([], st)
  | t :: ts, st =>
    match analyze_single llm gen st t with
    | none => none
    | some (r, st1) =>
      match analyze_batch llm gen ts st1 with
      | none => none
      | some (rs, st2) => some (r :: rs, st2)

/-! ### Concrete inputs used by witnesses and counterexamples -/

/-- A record whose keywords entry carries surrounding whitespace. -/
noncomputable def ceRecord : AnalysisRecord :=
  ⟨some "rec-1", none, "s", [], "neutral", [" ai "], 0.7, "padded keyword"⟩

/-- A record with an ordinary uppercase keyword. -/
noncomputable def wRecord : AnalysisRecord :=
  ⟨some "rec-2", none, "s", ["tech"], "neutral", ["AI"], 0.7, "plain keyword"⟩

/-! ## Basic lemmas about the character model -/

/-- `Char.toLower` either fixes a character (when it is not an ASCII capital)
or shifts its code point by 32 into the lowercase range. -/
theorem toLower_spec (c : Char) :
    (Char.toLower c = c ∧ ¬(65 ≤ c.toNat ∧ c.toNat ≤ 90)) ∨
    ((Char.toLower c).toNat = c.toNat + 32 ∧ 65 ≤ c.toNat ∧ c.toNat ≤ 90) := by
  unfold Char.toLower
  by_cases h : c.toNat ≥ 65 ∧ c.toNat ≤ 90
  · right
    rw [if_pos h]
    refine ⟨?_, h.1, h.2⟩
    rw [Char.ofNat, dif_pos (by left; omega)]
    show (UInt32.ofNat' _ _).toNat = _
    simp [UInt32.ofNat', UInt32.toNat, BitVec.toNat_ofNatLt]
  · left
    rw [if_neg h]
    exact ⟨rfl, h⟩

/-- Lowercasing is idempotent. -/
theorem toLower_idem (c : Char) : Char.toLower (Char.toLower c) = Char.toLower c := by
  rcases toLower_spec c with ⟨h, _⟩ | ⟨h, h1, h2⟩
  · simp only [h]
  · rcases toLower_spec (Char.toLower c) with ⟨h', _⟩ | ⟨_, h1', h2'⟩
    · exact h'
    · omega

/-- Lowercasing does not create or destroy whitespace. -/
theorem isPyWS_toLower (c : Char) : isPyWS (Char.toLower c) = isPyWS c := by
  rcases toLower_spec c with ⟨h, _⟩ | ⟨h, h1, h2⟩
  · rw [h]
  · rw [Bool.eq_iff_iff]
    simp only [isPyWS, Bool.or_eq_true, decide_eq_true_eq, h]
    omega

/-- `pyLower` is idempotent. -/
theorem pyLower_idem (s : String) : pyLower (pyLower s) = pyLower s := by
  unfold pyLower
  refine congrArg _ ?_
  show ((s.data.map Char.toLower).map Char.toLower) = _
  rw [List.map_map]
  exact List.map_congr_left (fun a _ => toLower_idem a)

/-- `str.lower` and `str.strip` commute. -/
theorem pyStrip_pyLower (s : String) : pyStrip (pyLower s) = pyLower (pyStrip s) := by
  unfold pyStrip pyLower trimChars
  refine String.ext ?_
  show ((((s.data.map Char.toLower).dropWhile isPyWS).reverse.dropWhile isPyWS).reverse) =
    (((s.data.dropWhile isPyWS).reverse.dropWhile isPyWS).reverse.map Char.toLower)
  have hws : (isPyWS ∘ Char.toLower) = isPyWS := funext fun c => isPyWS_toLower c
  rw [List.dropWhile_map, hws, ← List.map_reverse, List.dropWhile_map, hws, ← List.map_reverse]

/-- Lowercasing preserves (non-)emptiness of a string. -/
theorem pyLower_eq_empty_iff (s : String) : pyLower s = "" ↔ s = "" := by
  constructor
  · intro h
    have hdl : (pyLower s).data = [] := by rw [h]
    have hd : s.data = [] := by
      unfold pyLower at hdl
      simpa using hdl
    exact String.ext (by simp [hd])
  · intro h; rw [h]; rfl

/-! ## Storage: lemmas and claims C2, C10, C7 -/

/-- The search loop is a filter. -/
theorem searchLoop_eq_filter (q : String) (rows : List AnalysisRecord) :
    InMemoryDB.searchLoop q rows = rows.filter (InMemoryDB.matchesQuery q) := by
  induction rows with
  | nil => rfl
  | cons r rs ih =>
    unfold InMemoryDB.searchLoop
    rw [List.filter_cons]
    by_cases h : InMemoryDB.matchesQuery q r
    · rw [if_pos h, if_pos h, ih]
    · rw [if_neg h, ih, if_neg (by simp [h])]

/-- Insertion never changes the keywords or topics of the stored row. -/
theorem insert_preserves_fields (fresh : String) (rows : List AnalysisRecord)
    (row : AnalysisRecord) :
    (InMemoryDB.insert_analysis fresh rows row).1.keywords = row.keywords ∧
    (InMemoryDB.insert_analysis fresh rows row).1.topics = row.topics := by
  unfold InMemoryDB.insert_analysis
  by_cases h : idFalsy row.id <;> simp [h]

/-- Insertion appends the stored record to the previous rows. -/
theorem insert_appends (fresh : String) (rows : List AnalysisRecord)
    (row : AnalysisRecord) :
    (InMemoryDB.insert_analysis fresh rows row).2
      = rows ++ [(InMemoryDB.insert_analysis fresh rows row).1] := by
  unfold InMemoryDB.insert_analysis
  by_cases h : idFalsy row.id <;> simp [h]

/-- C2. For the in-memory backend, a blank query returns all stored records in
insertion order, and a non-blank query `q` returns exactly the stored records
(in order) for which the lowercased, trimmed `q` is case-insensitively equal
to at least one entry of the record's `topics` or `keywords` — whole-entry
equality, never substring containment. -/
theorem search_characterization (rows : List AnalysisRecord) (q : String) :
    InMemoryDB.search rows q =
      if pyStrip (pyLower q) = "" then rows
      else rows.filter (fun r => decide (∃ e ∈ r.topics ++ r.keywords,
        pyLower (pyStrip (pyLower q)) = pyLower e)) := by
  unfold InMemoryDB.search
  by_cases hq : pyStrip (pyLower q) = ""
  · rw [if_pos hq, if_pos hq]
  · rw [if_neg hq, if_neg hq, searchLoop_eq_filter]
    refine List.filter_congr (fun r _ => ?_)
    have hfix : pyLower (pyStrip (pyLower q)) = pyStrip (pyLower q) := by
      rw [pyStrip_pyLower, pyLower_idem, ← pyStrip_pyLower]
    unfold InMemoryDB.matchesQuery
    rw [← Bool.decide_or, decide_eq_decide]
    constructor
    · rintro (h | h)
      · obtain ⟨e, he, hee⟩ := List.mem_map.mp h
        exact ⟨e, List.mem_append_left _ he, by rw [hfix]; exact hee.symm⟩
      · obtain ⟨e, he, hee⟩ := List.mem_map.mp h
        exact ⟨e, List.mem_append_right _ he, by rw [hfix]; exact hee.symm⟩
    · rintro ⟨e, he, hee⟩
      have heq : pyStrip (pyLower q) = pyLower e := by rw [← hfix]; exact hee
      rcases List.mem_append.mp he with h | h
      · exact Or.inl (by rw [heq]; exact List.mem_map_of_mem pyLower h)
      · exact Or.inr (by rw [heq]; exact List.mem_map_of_mem pyLower h)

/-- C10. `insert_analysis` appends exactly one record, leaving the previous
rows unchanged and in order; the stored record agrees with the input row on
every field, except that `fresh` is assigned as id when the row's id is
absent or falsy. -/
theorem insert_analysis_frame (fresh : String) (rows : List AnalysisRecord)
    (row : AnalysisRecord) :
    (InMemoryDB.insert_analysis fresh rows row).2
        = rows ++ [(InMemoryDB.insert_analysis fresh rows row).1]
    ∧ (InMemoryDB.insert_analysis fresh rows row).1.id
        = (if idFalsy row.id then some fresh else row.id)
    ∧ (InMemoryDB.insert_analysis fresh rows row).1.title = row.title
    ∧ (InMemoryDB.insert_analysis fresh rows row).1.summary = row.summary
    ∧ (InMemoryDB.insert_analysis fresh rows row).1.topics = row.topics
    ∧ (InMemoryDB.insert_analysis fresh rows row).1.sentiment = row.sentiment
    ∧ (InMemoryDB.insert_analysis fresh rows row).1.keywords = row.keywords
    ∧ (InMemoryDB.insert_analysis fresh rows row).1.confidence = row.confidence
    ∧ (InMemoryDB.insert_analysis fresh rows row).1.text = row.text := by
  unfold InMemoryDB.insert_analysis
  by_cases h : idFalsy row.id <;> simp [h]

/-- C7 (amended). Inserting a record and then searching for one of its
keywords `k` — where `k` is non-empty and carries no surrounding whitespace —
in any letter case yields a result set containing a record with the stored
record's id. -/
theorem insert_then_search_finds (fresh : String) (rows : List AnalysisRecord)
    (row : AnalysisRecord) (k qs : String)
    (hk : k ∈ row.keywords) (htrim : pyStrip k = k) (hne : k ≠ "")
    (hcase : pyLower qs = pyLower k) :
    ∃ r ∈ InMemoryDB.search (InMemoryDB.insert_analysis fresh rows row).2 qs,
      r.id = (InMemoryDB.insert_analysis fresh rows row).1.id := by
  have hq : pyStrip (pyLower qs) = pyLower k := by
    rw [hcase, pyStrip_pyLower, htrim]
  have hqne : pyStrip (pyLower qs) ≠ "" := by
    rw [hq]
    exact fun h => hne ((pyLower_eq_empty_iff k).mp h)
  unfold InMemoryDB.search
  rw [if_neg hqne, searchLoop_eq_filter]
  refine ⟨(InMemoryDB.insert_analysis fresh rows row).1, ?_, rfl⟩
  rw [List.mem_filter]
  constructor
  · rw [insert_appends fresh rows row]
    exact List.mem_append_right _ (List.mem_singleton.mpr rfl)
  · unfold InMemoryDB.matchesQuery
    refine Bool.or_eq_true_iff.mpr (Or.inr (decide_eq_true ?_))
    rw [hq, (insert_preserves_fields fresh rows row).1]
    exact List.mem_map_of_mem pyLower hk

/-- C7 witness: a concrete record with keyword "AI", searched as "ai". -/
theorem insert_then_search_finds_witness :
    ∃ r ∈ InMemoryDB.search (InMemoryDB.insert_analysis "fresh-id" [] wRecord).2 "ai",
      r.id = (InMemoryDB.insert_analysis "fresh-id" [] wRecord).1.id :=
  insert_then_search_finds "fresh-id" [] wRecord "AI" "ai"
    (by decide) (by decide) (by decide) (by decide)

/-- C7 counterexample: keywords entry `" ai "` is non-blank, yet inserting the
record and searching for `" ai "` itself returns no results, because the
query is stripped while stored entries are not. -/
theorem insert_then_search_counterexample :
    " ai " ∈ ceRecord.keywords ∧ pyStrip " ai " ≠ "" ∧
    InMemoryDB.search (InMemoryDB.insert_analysis "fresh-id" [] ceRecord).2 " ai " = [] :=
  ⟨by decide, by decide, rfl⟩

/-! ## Confidence heuristic: lemmas and claims C3, C4, C8 -/

/-- `round3` fixes every integer multiple of 1/1000. -/
theorem round3_eq_div (k : ℤ) : round3 ((k : ℝ) / 1000) = (k : ℝ) / 1000 := by
  unfold round3
  rw [div_mul_cancel₀ _ (by norm_num : (1000:ℝ) ≠ 0), round_intCast]

/-- `round3` is idempotent. -/
theorem round3_idem (x : ℝ) : round3 (round3 x) = round3 x := round3_eq_div _

/-- A value equal to an integer multiple of 1/1000 is fixed by `round3`. -/
theorem round3_of_milli (x : ℝ) (k : ℤ) (h : x = (k:ℝ)/1000) : round3 x = x := by
  rw [h]; exact round3_eq_div k

/-- `round3` is monotone. -/
theorem round3_mono {x y : ℝ} (h : x ≤ y) : round3 x ≤ round3 y := by
  unfold round3
  have hr : round (x * 1000) ≤ round (y * 1000) := by
    rw [round_eq, round_eq]
    exact Int.floor_le_floor (by linarith)
  exact (div_le_div_iff_of_pos_right (by norm_num)).mpr (Int.cast_le.mpr hr)

/-- The raw confidence always lies in [0.65, 0.95]. -/
theorem raw_conf_bounds (text : String) (ok : Bool) :
    (0.65:ℝ) ≤ raw_conf text ok ∧ raw_conf text ok ≤ 0.95 := by
  unfold raw_conf
  have h10 : (0:ℝ) < Real.log 10 := Real.log_pos (by norm_num)
  have hn : (1:ℝ) ≤ ((max 1 (pySplitCount text) : ℕ) : ℝ) := by
    exact_mod_cast Nat.one_le_iff_ne_zero.mpr (by positivity)
  have hlog : Real.log 10 ≤ Real.log (((max 1 (pySplitCount text) : ℕ) : ℝ) + 9) :=
    Real.log_le_log (by norm_num) (by linarith)
  have hlb : (0.1:ℝ) ≤ Real.logb 10 (((max 1 (pySplitCount text) : ℕ) : ℝ) + 9) / 10 := by
    rw [← Real.log_div_log]
    rw [div_div]
    rw [le_div_iff₀ (by positivity)]
    nlinarith
  have hminlb : (0.1:ℝ) ≤ min 0.30 (Real.logb 10 (((max 1 (pySplitCount text) : ℕ) : ℝ) + 9) / 10) :=
    le_min (by norm_num) hlb
  have hminub : min 0.30 (Real.logb 10 (((max 1 (pySplitCount text) : ℕ) : ℝ) + 9) / 10) ≤ 0.30 :=
    min_le_left _ _
  by_cases hok : ok = true
  · rw [if_pos hok]; constructor <;> linarith
  · rw [if_neg hok]; constructor <;> linarith

/-- C4. For every text and flag, the confidence heuristic value lies in
[0.50, 0.98] and equals its own rounding to 3 decimal places. -/
theorem confidence_in_range_and_rounded (text : String) (ok : Bool) :
    (0.50:ℝ) ≤ confidence_heuristic text ok
    ∧ confidence_heuristic text ok ≤ 0.98
    ∧ round3 (confidence_heuristic text ok) = confidence_heuristic text ok := by
  unfold confidence_heuristic
  refine ⟨le_max_left _ _, max_le (by norm_num) (min_le_left _ _), ?_⟩
  rcases le_total (round3 (raw_conf text ok)) 0.98 with h1 | h1
  · rw [min_eq_right h1]
    rcases le_total 0.50 (round3 (raw_conf text ok)) with h2 | h2
    · rw [max_eq_right h2, round3_idem]
    · rw [max_eq_left h2]
      exact round3_of_milli _ 500 (by norm_num)
  · rw [min_eq_left h1]
    rw [max_eq_right (by norm_num : (0.50:ℝ) ≤ 0.98)]
    exact round3_of_milli _ 980 (by norm_num)

/-- C8. The rounded raw confidence already lies in [0.65, 0.95], so neither
clamp ever changes the result: the returned confidence is the rounded raw
value and lies in the tighter interval [0.65, 0.95]. -/
theorem confidence_clamps_never_bind (text : String) (ok : Bool) :
    confidence_heuristic text ok = round3 (raw_conf text ok)
    ∧ (0.65:ℝ) ≤ round3 (raw_conf text ok) ∧ round3 (raw_conf text ok) ≤ 0.95
    ∧ (0.65:ℝ) ≤ confidence_heuristic text ok
    ∧ confidence_heuristic text ok ≤ 0.95 := by
  obtain ⟨hl, hu⟩ := raw_conf_bounds text ok
  have hrl : (0.65:ℝ) ≤ round3 (raw_conf text ok) := by
    have h := round3_mono hl
    rwa [round3_of_milli (0.65:ℝ) 650 (by norm_num)] at h
  have hru : round3 (raw_conf text ok) ≤ 0.95 := by
    have h := round3_mono hu
    rwa [round3_of_milli (0.95:ℝ) 950 (by norm_num)] at h
  have heq : confidence_heuristic text ok = round3 (raw_conf text ok) := by
    unfold confidence_heuristic
    rw [min_eq_right (by linarith), max_eq_right (by linarith)]
  exact ⟨heq, hrl, hru, by rw [heq]; exact hrl, by rw [heq]; exact hru⟩

/-- log10 14 is at least 1.145 (since 14^200 ≥ 10^229). -/
theorem logb_fourteen_lb : (229/200 : ℝ) ≤ Real.logb 10 14 := by
  have h10 : (0:ℝ) < Real.log 10 := Real.log_pos (by norm_num)
  have hpow : Real.log ((10:ℝ)^(229:ℕ)) ≤ Real.log ((14:ℝ)^(200:ℕ)) :=
    Real.log_le_log (by positivity) (by norm_num)
  rw [Real.log_pow, Real.log_pow] at hpow
  rw [← Real.log_div_log, le_div_iff₀ h10]
  push_cast at hpow
  linarith

/-- log10 14 is less than 1.15 (since 14^20 < 10^23). -/
theorem logb_fourteen_ub : Real.logb 10 14 < (23/20 : ℝ) := by
  have h10 : (0:ℝ) < Real.log 10 := Real.log_pos (by norm_num)
  have hpow : Real.log ((14:ℝ)^(20:ℕ)) < Real.log ((10:ℝ)^(23:ℕ)) :=
    Real.log_lt_log (by positivity) (by norm_num)
  rw [Real.log_pow, Real.log_pow] at hpow
  rw [← Real.log_div_log, div_lt_iff₀ h10]
  push_cast at hpow
  linarith

/-- C3. The confidence heuristic computes
`clamp([0.50, 0.98], round3(0.55 + min(0.30, log10(max(1, wordCount) + 9)/10)
+ (0.10 if ok else 0)))`, and on `"one two three four five"` with a successful
external call it returns exactly 0.765. -/
theorem confidence_formula_and_example (text : String) (ok : Bool) :
    confidence_heuristic text ok
      = max 0.50 (min 0.98 (round3 (0.55
          + min 0.30 (Real.logb 10 (((max 1 (pySplitCount text) : ℕ) : ℝ) + 9) / 10)
          + (if ok then (0.10:ℝ) else 0))))
    ∧ confidence_heuristic "one two three four five" true = 0.765 := by
  constructor
  · rfl
  · have hn : pySplitCount "one two three four five" = 5 := rfl
    unfold confidence_heuristic raw_conf
    rw [hn]
    have hm : ((max 1 5 : ℕ) : ℝ) + 9 = 14 := by norm_num
    rw [hm, if_pos rfl]
    have hlb := logb_fourteen_lb
    have hub := logb_fourteen_ub
    have hmin : min (0.30:ℝ) (Real.logb 10 14 / 10) = Real.logb 10 14 / 10 :=
      min_eq_right (by linarith)
    rw [hmin]
    have hround : round ((0.55 + Real.logb 10 14 / 10 + 0.10) * 1000) = 765 := by
      rw [round_eq, Int.floor_eq_iff]
      constructor
      · push_cast; nlinarith
      · push_cast; nlinarith
    unfold round3
    rw [hround]
    rw [min_eq_right (by norm_num), max_eq_right (by norm_num)]
    norm_num

/-! ## Keyword extraction: structural lemmas -/

/-- Whitespace characters are not letters. -/
theorem isAl_eq_false_of_ws (c : Char) (h : isPyWS c = true) : isAl c = false := by
  simp only [isPyWS, Bool.or_eq_true, decide_eq_true_eq] at h
  rw [Bool.eq_false_iff]
  intro hal
  simp only [isAl, isUp, isLo, Bool.or_eq_true, Bool.and_eq_true, decide_eq_true_eq] at hal
  omega

/-- `rstripChar` only removes characters. -/
theorem rstripChar_subset (a : Char) (l : List Char) : rstripChar a l ⊆ l := by
  intro x hx
  unfold rstripChar at hx
  rw [List.mem_reverse] at hx
  have hs := (List.dropWhile_sublist (fun c => decide (c = a))).subset hx
  rwa [List.mem_reverse] at hs

/-- `possessiveDrop` only removes characters. -/
theorem possessiveDrop_subset (l : List Char) : possessiveDrop l ⊆ l := by
  unfold possessiveDrop
  split
  · split_ifs
    · exact List.take_subset _ _
    · exact fun x hx => hx
  · exact fun x hx => hx

/-- Every character of a cleaned base form comes from the lowered token. -/
theorem cleanBase_chars (tok : String) :
    ∀ c ∈ (cleanBase tok).data, c ∈ tok.data.map Char.toLower := by
  intro c hc
  have h0 : c ∈ possessiveDrop (rstripChar '’' (rstripChar '\'' (tok.data.map Char.toLower))) := hc
  have h1 := possessiveDrop_subset _ h0
  have h2 := rstripChar_subset _ _ h1
  exact rstripChar_subset _ _ h2

/-- Cleaned base forms are fixed by lowercasing. -/
theorem pyLower_cleanBase (tok : String) : pyLower (cleanBase tok) = cleanBase tok := by
  refine String.ext ?_
  show ((cleanBase tok).data.map Char.toLower) = (cleanBase tok).data
  have h : ∀ c ∈ (cleanBase tok).data, Char.toLower c = c := by
    intro c hc
    obtain ⟨c', _, rfl⟩ := List.mem_map.mp (cleanBase_chars tok c hc)
    exact toLower_idem c'
  calc (cleanBase tok).data.map Char.toLower
      = (cleanBase tok).data.map id := List.map_congr_left h
    _ = (cleanBase tok).data := List.map_id _

/-- Inversion for a successful cleaning step. -/
theorem cleanTok_eq_some (tok w : String) (h : cleanTok tok = some w) :
    w = cleanBase tok ∧ w ∉ _STOPWORDS ∧ w ∉ _COMMON_VERBS ∧ 3 ≤ w.length := by
  unfold cleanTok at h
  split_ifs at h with hcond
  have hw : cleanBase tok = w := Option.some.inj h
  subst hw
  push_neg at hcond
  exact ⟨rfl, hcond.1, hcond.2.1, by omega⟩

/-- `firstDedup` keeps no duplicates. -/
theorem firstDedup_nodup (l : List String) : (firstDedup l).Nodup := by
  induction l with
  | nil => exact List.nodup_nil
  | cons x xs ih =>
    rw [firstDedup, List.nodup_cons]
    constructor
    · intro hx
      exact absurd (List.mem_filter.mp hx).2 (by simp)
    · exact ih.filter _

/-- `firstDedup` preserves membership. -/
theorem mem_firstDedup (l : List String) (a : String) : a ∈ firstDedup l ↔ a ∈ l := by
  induction l with
  | nil => rfl
  | cons x xs ih =>
    rw [firstDedup]
    constructor
    · intro h
      rcases List.mem_cons.mp h with rfl | h
      · exact List.mem_cons_self _ _
      · exact List.mem_cons_of_mem _ (ih.mp (List.mem_filter.mp h).1)
    · intro h
      rcases List.mem_cons.mp h with rfl | h
      · exact List.mem_cons_self _ _
      · by_cases hax : a = x
        · exact hax ▸ List.mem_cons_self _ _
        · exact List.mem_cons_of_mem _
            (List.mem_filter.mpr ⟨ih.mpr h, by simpa using hax⟩)

/-- Anything produced by the final loop comes from its accumulator or input. -/
theorem topLoop_subset : ∀ (l acc : List String), ∀ x ∈ topLoop acc l, x ∈ acc ∨ x ∈ l := by
  intro l
  induction l with
  | nil => intro acc x hx; exact Or.inl hx
  | cons w ws ih =>
    intro acc x hx
    have hstep : ∀ y ∈ topStep acc w, y ∈ acc ∨ y = w := by
      intro y hy
      unfold topStep at hy
      split_ifs at hy with hmem
      · exact Or.inl hy
      · rcases List.mem_append.mp hy with h | h
        · exact Or.inl h
        · exact Or.inr (List.mem_singleton.mp h)
    rw [topLoop] at hx
    split_ifs at hx with h3
    · rcases hstep x hx with h | rfl
      · exact Or.inl h
      · exact Or.inr (List.mem_cons_self _ _)
    · rcases ih (topStep acc w) x hx with h | h
      · rcases hstep x h with h' | rfl
        · exact Or.inl h'
        · exact Or.inr (List.mem_cons_self _ _)
      · exact Or.inr (List.mem_cons_of_mem _ h)

/-- The final loop never returns more than three words. -/
theorem topLoop_le_three : ∀ (l acc : List String), acc.length < 3 →
    (topLoop acc l).length ≤ 3 := by
  intro l
  induction l with
  | nil => intro acc h; rw [topLoop]; omega
  | cons w ws ih =>
    intro acc h
    have hstep : (topStep acc w).length ≤ acc.length + 1 := by
      unfold topStep; split_ifs <;> simp
    rw [topLoop]
    split_ifs with h3
    · omega
    · exact ih _ (by omega)

/-- The final loop returns pairwise distinct words. -/
theorem topLoop_nodup : ∀ (l acc : List String), acc.Nodup → (topLoop acc l).Nodup := by
  intro l
  induction l with
  | nil => intro acc h; rw [topLoop]; exact h
  | cons w ws ih =>
    intro acc h
    have hstep : (topStep acc w).Nodup := by
      unfold topStep
      split_ifs with hmem
      · exact h
      · rw [List.nodup_append]
        exact ⟨h, List.nodup_singleton w, by
          intro a ha hainw
          rw [List.mem_singleton] at hainw
          exact hmem (hainw ▸ ha)⟩
    rw [topLoop]
    split_ifs with h3
    · exact hstep
    · exact ih _ hstep

/-- On duplicate-free input starting from a short accumulator, the final loop
just takes the first three elements. -/
theorem topLoop_take : ∀ (l acc : List String), (acc ++ l).Nodup → acc.length < 3 →
    topLoop acc l = (acc ++ l).take 3 := by
  intro l
  induction l with
  | nil =>
    intro acc hnd h
    rw [topLoop, List.append_nil]
    exact (List.take_of_length_le (by omega)).symm
  | cons w ws ih =>
    intro acc hnd h
    have heq : acc ++ w :: ws = (acc ++ [w]) ++ ws := by simp
    have hw : w ∉ acc := by
      rcases List.nodup_append.mp hnd with ⟨_, _, hdisj⟩
      intro hmem
      exact hdisj hmem (List.mem_cons_self w ws)
    have hstep : topStep acc w = acc ++ [w] := by unfold topStep; rw [if_neg hw]
    have hlen : (acc ++ [w]).length = acc.length + 1 := by simp
    rw [topLoop, hstep]
    split_ifs with h3
    · rw [heq, List.take_append_eq_append_take, h3, List.take_of_length_le (by omega)]
      simp
    · rw [heq] at hnd ⊢
      exact ih (acc ++ [w]) hnd (by omega)

/-- C5. `extract_top3_nouns_like` returns at most 3 pairwise-distinct tokens,
and returns the empty sequence on empty or whitespace-only input. -/
theorem extract_top3_short_unique (text : String) :
    (extract_top3_nouns_like text).length ≤ 3
    ∧ (extract_top3_nouns_like text).Nodup
    ∧ (pyStrip text = "" → extract_top3_nouns_like text = []) := by
  refine ⟨?_, ?_, fun hb => ?_⟩
  · unfold extract_top3_nouns_like
    split_ifs
    · simp
    · simp
    · simp
    · exact topLoop_le_three _ [] (by norm_num)
  · unfold extract_top3_nouns_like
    split_ifs
    · simp
    · simp
    · simp
    · exact topLoop_nodup _ [] List.nodup_nil
  · unfold extract_top3_nouns_like
    rw [if_pos (Or.inr hb)]

/-- C5 witness at the whitespace-only input `"   "`. -/
theorem extract_top3_short_unique_witness :
    (extract_top3_nouns_like "   ").length ≤ 3 ∧ extract_top3_nouns_like "   " = [] :=
  ⟨(extract_top3_short_unique "   ").1, (extract_top3_short_unique "   ").2.2 (by decide)⟩

/-- C9. Every returned keyword is entirely lowercase (fixed by lowercasing),
has length at least 3, and is neither a stopword nor a common verb. -/
theorem extract_tokens_wellformed (text : String) :
    ∀ w ∈ extract_top3_nouns_like text,
      pyLower w = w ∧ 3 ≤ w.length ∧ w ∉ _STOPWORDS ∧ w ∉ _COMMON_VERBS := by
  intro w hw
  unfold extract_top3_nouns_like at hw
  split_ifs at hw
  · exact absurd hw (by simp)
  · exact absurd hw (by simp)
  · exact absurd hw (by simp)
  · rcases topLoop_subset _ [] w hw with h | h
    · exact absurd h (by simp)
    · rw [List.mem_insertionSort, mem_firstDedup] at h
      unfold cleanTokens at h
      obtain ⟨t, _, hsome⟩ := List.mem_filterMap.mp h
      obtain ⟨hbase, hst, hcv, hlen⟩ := cleanTok_eq_some t w hsome
      exact ⟨by rw [hbase]; exact pyLower_cleanBase t, hlen, hst, hcv⟩

/-- C9 witness: on a concrete text the extractor returns `"data"`, which is
lowercase, long enough, and in neither exclusion list. -/
theorem extract_tokens_wellformed_witness :
    pyLower "data" = "data" ∧ 3 ≤ String.length "data"
    ∧ "data" ∉ _STOPWORDS ∧ "data" ∉ _COMMON_VERBS :=
  extract_tokens_wellformed "Data data" "data" (by decide)

/-! ## Keyword ranking: order lemmas and claim C1 -/

/-- The ranking relation is total. -/
theorem keyLE_total (cl caps : List String) (w v : String) :
    keyLE cl caps w v ∨ keyLE cl caps v w := by
  rcases Nat.lt_trichotomy (score100 cl caps w) (score100 cl caps v) with h | h | h
  · right; left; exact h
  · rcases Nat.lt_trichotomy (cl.count w) (cl.count v) with hf | hf | hf
    · right; right; exact ⟨h.symm, Or.inl hf⟩
    · rcases le_total w.data v.data with hd | hd
      · left; right; exact ⟨h, Or.inr ⟨hf, hd⟩⟩
      · right; right; exact ⟨h.symm, Or.inr ⟨hf.symm, hd⟩⟩
    · left; right; exact ⟨h, Or.inl hf⟩
  · left; left; exact h

/-- The ranking relation is transitive. -/
theorem keyLE_trans (cl caps : List String) (a b c : String)
    (h1 : keyLE cl caps a b) (h2 : keyLE cl caps b c) : keyLE cl caps a c := by
  rcases h1 with h1 | ⟨e1, h1⟩ <;> rcases h2 with h2 | ⟨e2, h2⟩
  · left; omega
  · left; omega
  · left; omega
  · right
    refine ⟨by omega, ?_⟩
    rcases h1 with h1 | ⟨f1, d1⟩ <;> rcases h2 with h2 | ⟨f2, d2⟩
    · left; omega
    · left; omega
    · left; omega
    · right; exact ⟨by omega, le_trans d1 d2⟩

/-- The ranking relation is antisymmetric (the word is part of the key). -/
theorem keyLE_antisymm (cl caps : List String) (a b : String)
    (h1 : keyLE cl caps a b) (h2 : keyLE cl caps b a) : a = b := by
  refine String.ext ?_
  rcases h1 with h1 | ⟨e1, h1⟩ <;> rcases h2 with h2 | ⟨e2, h2⟩
  · exact absurd h1 (by omega)
  · exact absurd h1 (by omega)
  · exact absurd h2 (by omega)
  · rcases h1 with h1 | ⟨f1, d1⟩ <;> rcases h2 with h2 | ⟨f2, d2⟩
    · exact absurd h1 (by omega)
    · exact absurd h1 (by omega)
    · exact absurd h2 (by omega)
    · exact le_antisymm d1 d2

/-- The rational spec score is the scaled integer score divided by 100. -/
theorem scoreQ_eq_score100 (cl caps : List String) (w : String) :
    scoreQ cl caps w = (score100 cl caps w : ℚ) / 100 := by
  unfold scoreQ score100
  by_cases h1 : w ∈ caps <;> by_cases h2 : 7 ≤ w.length <;>
    simp only [h1, h2, if_true, if_false, if_pos, if_neg, not_false_iff] <;>
    push_cast <;> ring

/-- The spec ranking relation (with exact rational scores 0.25 / 0.10)
coincides with the scaled-integer ranking relation of the code. -/
theorem specLE_iff_keyLE (cl caps : List String) (w v : String) :
    specLE cl caps w v ↔ keyLE cl caps w v := by
  have hlt : ∀ a b : String,
      (scoreQ cl caps a < scoreQ cl caps b ↔ score100 cl caps a < score100 cl caps b) := by
    intro a b
    rw [scoreQ_eq_score100, scoreQ_eq_score100,
      div_lt_div_iff_of_pos_right (by norm_num : (0:ℚ) < 100)]
    exact_mod_cast Iff.rfl
  have heq : ∀ a b : String,
      (scoreQ cl caps a = scoreQ cl caps b ↔ score100 cl caps a = score100 cl caps b) := by
    intro a b
    rw [scoreQ_eq_score100, scoreQ_eq_score100]
    constructor
    · intro h
      have h100 : (score100 cl caps a : ℚ) = score100 cl caps b := by
        have := congrArg (fun x : ℚ => x * 100) h
        simpa [div_mul_cancel₀] using this
      exact_mod_cast h100
    · intro h; rw [h]
  exact or_congr (hlt v w) (and_congr (heq w v) Iff.rfl)

/-- A single character is Python-uppercase iff it is an uppercase letter. -/
theorem cap_first_eq (c : Char) : (isAl c && !(isLo c)) = isUp c := by
  rw [Bool.eq_iff_iff]
  simp only [Bool.and_eq_true, Bool.not_eq_true', Bool.eq_false_iff, Ne,
    isAl, isUp, isLo, Bool.or_eq_true, Bool.and_eq_true, decide_eq_true_eq]
  omega

/-- Per character, "not a letter or lowercase" is "not uppercase". -/
theorem lower_test_eq_not_up (c : Char) : (!(isAl c) || isLo c) = !(isUp c) := by
  rw [Bool.eq_iff_iff]
  simp only [Bool.or_eq_true, Bool.not_eq_true', Bool.eq_false_iff, Ne,
    isAl, isUp, isLo, Bool.or_eq_true, Bool.and_eq_true, decide_eq_true_eq]
  omega

/-- The caps set of the code equals the amended spec caps set. -/
theorem capsOf_eq_specCapsAmended (tokens : List String) :
    capsOf tokens = specCapsAmended tokens := by
  unfold capsOf specCapsAmended
  refine congrArg (List.map pyLower) (List.filter_congr fun t _ => ?_)
  unfold specCapsPredAmended specCapsPredClaim pyIsUpper pyIsLower
  cases hd : t.data with
  | nil => rfl
  | cons c rest =>
    simp only [List.take_succ_cons, List.take_nil, List.take_zero, List.drop_succ_cons,
      List.drop_nil, List.drop_zero, List.any_cons, List.any_nil, List.all_cons,
      List.all_nil, Bool.or_false, Bool.and_true]
    rw [cap_first_eq]
    rw [show (fun c => !(isAl c) || isLo c) = (fun c => !(isUp c)) from
      funext lower_test_eq_not_up]
    cases h1 : isUp c <;> cases h2 : rest.any isAl <;>
      cases h3 : rest.all (fun c => !(isUp c)) <;> rfl

/-- If the trailing part of a drop-while is all whitespace, so is the list. -/
theorem all_ws_of_dropWhile_ws : ∀ l : List Char,
    (∀ x ∈ List.dropWhile isPyWS l, isPyWS x = true) → ∀ c ∈ l, isPyWS c = true := by
  intro l
  induction l with
  | nil => intro _ c hc; exact absurd hc (by simp)
  | cons a as ih =>
    intro h c hc
    rw [List.dropWhile_cons] at h
    by_cases hws : isPyWS a = true
    · rw [if_pos hws] at h
      rcases List.mem_cons.mp hc with rfl | hc
      · exact hws
      · exact ih h c hc
    · rw [if_neg hws] at h
      exact h c hc

/-- A string with empty strip consists of whitespace only. -/
theorem trim_empty_all_ws (s : String) (h : pyStrip s = "") :
    ∀ c ∈ s.data, isPyWS c = true := by
  have hdata : trimChars s.data = [] := congrArg String.data h
  unfold trimChars at hdata
  rw [List.reverse_eq_nil_iff, List.dropWhile_eq_nil_iff] at hdata
  refine all_ws_of_dropWhile_ws s.data (fun x hx => ?_)
  exact hdata x (List.mem_reverse.mpr hx)

/-- The scanner finds no token in pure whitespace. -/
theorem scanTok_eq_nil_of_ws : ∀ l : List Char,
    (∀ c ∈ l, isPyWS c = true) → scanTok none l = [] := by
  intro l
  induction l with
  | nil => intro _; rfl
  | cons c cs ih =>
    intro h
    have hc := isAl_eq_false_of_ws c (h c (List.mem_cons_self c cs))
    rw [scanTok, if_neg (by simp [hc])]
    exact ih (fun x hx => h x (List.mem_cons_of_mem c hx))

/-- Blank inputs have no tokens. -/
theorem pyFindall_blank (text : String) (h : text = "" ∨ pyStrip text = "") :
    pyFindall text = [] := by
  rcases h with rfl | h
  · rfl
  · unfold pyFindall
    rw [scanTok_eq_nil_of_ws _ (trim_empty_all_ws text h)]
    rfl

/-- The sorted pipeline of the code (first-occurrence dedup, tuple-key sort,
bounded collection loop) equals the spec pipeline (set dedup, rational-score
sort, take 3). -/
theorem sorted_pipeline_eq (cl caps : List String) :
    topLoop [] ((firstDedup cl).insertionSort (fun w v => keyLE cl caps w v))
      = ((cl.dedup).insertionSort (fun w v => specLE cl caps w v)).take 3 := by
  haveI : IsTotal String (fun w v => keyLE cl caps w v) := ⟨keyLE_total cl caps⟩
  haveI : IsTrans String (fun w v => keyLE cl caps w v) := ⟨keyLE_trans cl caps⟩
  haveI : IsAntisymm String (fun w v => keyLE cl caps w v) := ⟨keyLE_antisymm cl caps⟩
  have hperm : ((firstDedup cl).insertionSort (fun w v => keyLE cl caps w v)).Perm
      ((cl.dedup).insertionSort (fun w v => specLE cl caps w v)) := by
    refine (List.perm_insertionSort _ _).trans
      (List.Perm.trans ?_ (List.perm_insertionSort _ _).symm)
    exact (List.perm_ext_iff_of_nodup (firstDedup_nodup cl) (List.nodup_dedup cl)).mpr
      (fun a => (mem_firstDedup cl a).trans List.mem_dedup.symm)
  have hs1 : List.Sorted (fun w v => keyLE cl caps w v)
      ((firstDedup cl).insertionSort (fun w v => keyLE cl caps w v)) :=
    List.sorted_insertionSort _ _
  have hs2 : List.Sorted (fun w v => keyLE cl caps w v)
      ((cl.dedup).insertionSort (fun w v => specLE cl caps w v)) := by
    haveI : IsTotal String (fun w v => specLE cl caps w v) := ⟨fun a b => by
      rw [specLE_iff_keyLE, specLE_iff_keyLE]
      exact keyLE_total cl caps a b⟩
    haveI : IsTrans String (fun w v => specLE cl caps w v) := ⟨fun a b c h1 h2 => by
      rw [specLE_iff_keyLE] at h1 h2 ⊢
      exact keyLE_trans cl caps a b c h1 h2⟩
    have hs := List.sorted_insertionSort (fun w v => specLE cl caps w v) (cl.dedup)
    exact hs.imp (fun h => (specLE_iff_keyLE cl caps _ _).mp h)
  have heq := List.eq_of_perm_of_sorted hperm hs1 hs2
  rw [heq]
  have hnd : ((cl.dedup).insertionSort (fun w v => specLE cl caps w v)).Nodup :=
    (List.perm_insertionSort _ _).symm.nodup (List.nodup_dedup cl)
  have htake := topLoop_take
    ((cl.dedup).insertionSort (fun w v => specLE cl caps w v)) []
    (by simpa using hnd) (by norm_num)
  simpa using htake

/-- C1 (amended). `extract_top3_nouns_like` scores each distinct surviving
token as `frequency + (0.25 if capitalized else 0) + (0.10 if length ≥ 7 else
0)`, where the capitalized-set collects lowercase forms of tokens whose first
character is an uppercase letter and whose remaining characters contain at
least one letter, all remaining letters lowercase; ranks by score descending,
then raw frequency descending, then lexicographically ascending; and returns
the first 3 distinct tokens in this order. -/
theorem extract_top3_eq_spec (text : String) :
    extract_top3_nouns_like text = spec_top3 text := by
  unfold extract_top3_nouns_like spec_top3 spec_top3_with
  by_cases h1 : text = "" ∨ pyStrip text = ""
  · rw [if_pos h1, pyFindall_blank text h1]
    rfl
  · rw [if_neg h1]
    by_cases h2 : pyFindall text = []
    · rw [if_pos h2, h2]
      rfl
    · rw [if_neg h2]
      by_cases h3 : cleanTokens (pyFindall text) = []
      · rw [if_pos h3, h3]
        rfl
      · rw [if_neg h3, ← capsOf_eq_specCapsAmended]
        exact sorted_pipeline_eq (cleanTokens (pyFindall text)) (capsOf (pyFindall text))

/-- C1 counterexample: on `"Z-- ab-"` the literal claim reading puts `"z--"`
in the capitalized set (its remaining characters contain no letter, so
"remaining letters lowercase" holds vacuously) and ranks it first with score
1.25, while the code (Python `islower` needs a cased character) scores both
tokens 1 and breaks the tie lexicographically. -/
theorem extract_top3_claim_counterexample :
    extract_top3_nouns_like "Z-- ab-" = ["ab-", "z--"]
    ∧ spec_top3_claim "Z-- ab-" = ["z--", "ab-"]
    ∧ spec_top3_claim "Z-- ab-" ≠ extract_top3_nouns_like "Z-- ab-" := by
  have h1 : extract_top3_nouns_like "Z-- ab-" = ["ab-", "z--"] := by decide
  have hclean : cleanTokens (pyFindall "Z-- ab-") = ["z--", "ab-"] := by decide
  have hcaps : specCapsClaim (pyFindall "Z-- ab-") = ["z--"] := by decide
  have h2 : spec_top3_claim "Z-- ab-" = ["z--", "ab-"] := by
    unfold spec_top3_claim spec_top3_with
    rw [hclean, hcaps]
    have hd : (["z--", "ab-"] : List String).dedup = ["z--", "ab-"] := by decide
    rw [hd]
    have hr : specLE ["z--", "ab-"] ["z--"] "z--" "ab-" := by
      left
      unfold scoreQ
      rw [show (["z--", "ab-"] : List String).count "ab-" = 1 from by decide,
        show (["z--", "ab-"] : List String).count "z--" = 1 from by decide,
        if_neg (show "ab-" ∉ (["z--"] : List String) from by decide),
        if_pos (show "z--" ∈ (["z--"] : List String) from by decide),
        if_neg (show ¬ 7 ≤ String.length "ab-" from by decide),
        if_neg (show ¬ 7 ≤ String.length "z--" from by decide)]
      norm_num
    have hsort : List.insertionSort (fun w v => specLE ["z--", "ab-"] ["z--"] w v)
        ["z--", "ab-"] = ["z--", "ab-"] := by
      simp only [List.insertionSort, List.orderedInsert]
      rw [if_pos hr]
    rw [hsort]
    rfl
  refine ⟨h1, h2, ?_⟩
  rw [h1, h2]
  decide

/-! ## Analysis flow: claim C6 -/

/-- A non-blank item is always analyzed successfully, whatever the LLM does. -/
theorem analyze_single_total (llm : String → Option (String × LLMMeta))
    (gen : ℕ → String) (st : List AnalysisRecord × ℕ) (text : String)
    (htext : pyStrip text ≠ "") :
    ∃ r st1, analyze_single llm gen st text = some (r, st1) := by
  unfold analyze_single
  rw [if_neg htext]
  cases hres : llm (pyStrip text) with
  | none => exact ⟨_, _, rfl⟩
  | some sm =>
    cases sm with
    | mk s m => exact ⟨_, _, rfl⟩

/-- C6. When the external capability fails on a (non-blank) item, the item is
still analyzed and persisted with the fixed fallback summary, null title,
topics `["general","unknown","llm-failure"]`, sentiment `"neutral"`, and the
confidence heuristic invoked with `externalCallSucceeded = false`; and a batch
of non-blank items always produces one result per item, so one item's LLM
failure never aborts its siblings. -/
theorem llm_failure_fallback (llm : String → Option (String × LLMMeta))
    (gen : ℕ → String) :
    (∀ (st : List AnalysisRecord × ℕ) (text : String),
      pyStrip text ≠ "" → llm (pyStrip text) = none →
      ∃ r, analyze_single llm gen st text = some (r, (st.1 ++ [r], st.2 + 1))
        ∧ r.summary = fallbackSummary
        ∧ r.title = none
        ∧ r.topics = fallbackTopics
        ∧ r.sentiment = "neutral"
        ∧ r.confidence = confidence_heuristic (pyStrip text) false
        ∧ r.keywords = extract_top3_nouns_like (pyStrip text))
    ∧ (∀ (items : List String) (st : List AnalysisRecord × ℕ),
      (∀ t ∈ items, pyStrip t ≠ "") →
      ∃ res st2, analyze_batch llm gen items st = some (res, st2)
        ∧ res.length = items.length) := by
  constructor
  · intro st text htext hllm
    refine ⟨⟨some (gen st.2), none, fallbackSummary, fallbackTopics, "neutral",
      extract_top3_nouns_like (pyStrip text),
      confidence_heuristic (pyStrip text) false, pyStrip text⟩,
      ?_, rfl, rfl, rfl, rfl, rfl, rfl⟩
    unfold analyze_single
    rw [if_neg htext, hllm]
    rfl
  · intro items
    induction items with
    | nil => intro st _; exact ⟨[], st, rfl, rfl⟩
    | cons t ts ih =>
      intro st h
      obtain ⟨r, st1, hr⟩ := analyze_single_total llm gen st t
        (h t (List.mem_cons_self t ts))
      obtain ⟨res, st2, hb, hlen⟩ := ih st1 (fun x hx => h x (List.mem_cons_of_mem t hx))
      refine ⟨r :: res, st2, ?_, by simpa using hlen⟩
      simp only [analyze_batch, hr, hb]

/-- C6 witness: a concrete always-failing LLM oracle, one single item and a
two-item batch. -/
theorem llm_failure_fallback_witness :
    (∃ r, analyze_single (fun _ => none) (fun _ => "uuid-0") ([], 0) "hello world"
        = some (r, ([] ++ [r], 0 + 1))
      ∧ r.summary = fallbackSummary ∧ r.title = none ∧ r.topics = fallbackTopics
      ∧ r.sentiment = "neutral"
      ∧ r.confidence = confidence_heuristic (pyStrip "hello world") false
      ∧ r.keywords = extract_top3_nouns_like (pyStrip "hello world"))
    ∧ (∃ res st2,
        analyze_batch (fun _ => none) (fun _ => "uuid-0") ["alpha", "beta"] ([], 0)
          = some (res, st2)
        ∧ res.length = (["alpha", "beta"] : List String).length) :=
  ⟨(llm_failure_fallback (fun _ => none) (fun _ => "uuid-0")).1 ([], 0) "hello world"
      (by decide) rfl,
   (llm_failure_fallback (fun _ => none) (fun _ => "uuid-0")).2 ["alpha", "beta"] ([], 0)
      (by decide)⟩
